import Mathlib

/-!
# Drawing & History Engine — shallow embedding

A shallow embedding of the drawing/undo engine of `src/components/Board.tsx`
(together with the types of `src/types.ts`).  The component state
(`isDrawing`, `startPos`, `snapshot`, `history`, `typingPos`) and the canvas
are modelled explicitly; each React event handler becomes a pure state
transformer.

The HTML `CanvasRenderingContext2D` is external to the repository, so its
rendering is modelled abstractly but deterministically: a pixel of the canvas
holds the list of paint events (most recent first) that were rasterized onto
it since it was last overwritten, and every stroke/fill call appends its
event — carrying the full drawing state it was issued with — to every pixel
inside the canvas bounds.  `getImageData` / `putImageData` / `clearRect` /
surface reallocation act on pixels exactly as the HTML specification
prescribes for the full-buffer calls made by the source.  Equality of pixel
traces implies byte-identity of the real buffers, because real rasterization
is a deterministic function of the trace.

JavaScript floating-point helpers (`Math.sqrt`, `Math.atan2`, `Math.cos`,
`Math.sin`, `Math.PI`) are pure; they are modelled as an explicit record of
rational-valued functions that every definition using them is parametric in.
-/

/-- `Point {x, y}` from `src/types.ts`; coordinates are modelled as
rationals. -/
structure Point where
  x : ℚ
  y : ℚ
deriving DecidableEq

/-- `DrawingSettings {color, width, opacity}` from `src/types.ts`. -/
structure DrawingSettings where
  color : String
  width : ℚ
  opacity : ℚ
deriving DecidableEq

/-- `ToolType` from `src/types.ts`. -/
inductive ToolType
  | pen | line | dashed | circle | ellipse | rect | triangle | axis
  | eraser | text
deriving DecidableEq

/-- The two values of `ctx.globalCompositeOperation` used by the source. -/
inductive GCO
  | sourceOver
  | destinationOut
deriving DecidableEq

/-- Path-building commands issued on the 2D context by the source
(`beginPath` resets the path; the rest append). -/
inductive PathCmd
  | moveTo (p : Point)
  | lineTo (p : Point)
  | arc (center : Point) (radius : ℚ) (startAngle endAngle : ℚ)
  | ellipseCmd (center : Point) (radiusX radiusY rotation startAngle endAngle : ℚ)
  | closePath
deriving DecidableEq

/-- The stroke-relevant context state captured by a `stroke()` /
`strokeRect()` call. -/
structure StrokeStyle where
  strokeStyle : String
  lineWidth : ℚ
  lineDash : List ℚ
  gco : GCO
  globalAlpha : ℚ
  lineCap : String
  lineJoin : String
deriving DecidableEq

/-- A rasterization event: one `stroke()`, `strokeRect()` or `fillText()`
call, carrying the full drawing state it was issued with. -/
inductive PaintEvent
  | strokePath (path : List PathCmd) (style : StrokeStyle)
  | strokeRectEvt (x y w h : ℚ) (style : StrokeStyle)
  | fillTextEvt (text : String) (x y : ℚ) (font : String) (fillStyle : String)
      (textBaseline : String) (gco : GCO) (globalAlpha : ℚ)
deriving DecidableEq

/-- The mutable state of the 2D context, as far as the source touches it. -/
structure CtxState where
  strokeStyle : String
  lineWidth : ℚ
  lineDash : List ℚ
  gco : GCO
  globalAlpha : ℚ
  lineCap : String
  lineJoin : String
  font : String
  fillStyle : String
  textBaseline : String
  path : List PathCmd
deriving DecidableEq

/-- The 2D-context defaults established by the HTML specification whenever a
canvas (re)acquires its backing store. -/
def defaultCtx : CtxState where
  strokeStyle := "#000000"
  lineWidth := 1
  lineDash := []
  gco := .sourceOver
  globalAlpha := 1
  lineCap := "butt"
  lineJoin := "miter"
  font := "10px sans-serif"
  fillStyle := "#000000"
  textBaseline := "alphabetic"
  path := []

/-- An `ImageData`: dimensions plus per-pixel traces.  Pixels outside the
stated dimensions are irrelevant and normalised to `[]` on capture. -/
@[ext]
structure ImageData where
  width : Nat
  height : Nat
  pix : Nat → Nat → List PaintEvent

/-- The canvas: backing-store dimensions, per-pixel traces, context state. -/
@[ext]
structure Canvas where
  width : Nat
  height : Nat
  pix : Nat → Nat → List PaintEvent
  ctx : CtxState

/-- `ctx.getImageData(0, 0, canvas.width, canvas.height)`: full-buffer
copy-out; out-of-bounds pixels read as transparent. -/
def getImageData (c : Canvas) : ImageData where
  width := c.width
  height := c.height
  pix := fun i j => if i < c.width ∧ j < c.height then c.pix i j else []

/-- `ctx.putImageData(img, 0, 0)`: writes `img`'s pixel rectangle at the
origin, clipped to the canvas bounds; other pixels are untouched. -/
def putImageData (c : Canvas) (img : ImageData) : Canvas :=
  { c with pix := fun i j =>
      if i < img.width ∧ j < img.height ∧ i < c.width ∧ j < c.height then
        img.pix i j
      else c.pix i j }

/-- `ctx.clearRect(0, 0, canvas.width, canvas.height)`: every in-bounds pixel
becomes fully transparent. -/
def clearRectFull (c : Canvas) : Canvas :=
  { c with pix := fun i j => if i < c.width ∧ j < c.height then [] else c.pix i j }

/-- Rasterize one paint event onto every in-bounds pixel (abstract model of
the external rasterizer; see the header). -/
def paint (c : Canvas) (e : PaintEvent) : Canvas :=
  { c with pix := fun i j => if i < c.width ∧ j < c.height then e :: c.pix i j else c.pix i j }

/-- The stroke-relevant part of a context state. -/
def styleOf (ctx : CtxState) : StrokeStyle where
  strokeStyle := ctx.strokeStyle
  lineWidth := ctx.lineWidth
  lineDash := ctx.lineDash
  gco := ctx.gco
  globalAlpha := ctx.globalAlpha
  lineCap := ctx.lineCap
  lineJoin := ctx.lineJoin

/-- `ctx.stroke()`: rasterizes the current path with the current style. -/
def strokeCtx (c : Canvas) : Canvas :=
  paint c (.strokePath c.ctx.path (styleOf c.ctx))

/-- `ctx.strokeRect(x, y, w, h)`: rasterizes a rectangle outline with the
current style, without touching the current path. -/
def strokeRectC (c : Canvas) (x y w h : ℚ) : Canvas :=
  paint c (.strokeRectEvt x y w h (styleOf c.ctx))

/-- `ctx.fillText(text, x, y)`: rasterizes text with the current fill
state. -/
def fillTextC (c : Canvas) (text : String) (x y : ℚ) : Canvas :=
  paint c (.fillTextEvt text x y c.ctx.font c.ctx.fillStyle c.ctx.textBaseline
    c.ctx.gco c.ctx.globalAlpha)

/-- `canvas.width = w; canvas.height = h`: per the HTML specification,
assigning either dimension reallocates the backing store — all pixels become
transparent and the context state is reset to its defaults. -/
def setCanvasSize (w h : Nat) (_c : Canvas) : Canvas where
  width := w
  height := h
  pix := fun _ _ => []
  ctx := defaultCtx

/-- The JavaScript float helpers used by the source, as an explicit record of
deterministic rational-valued functions. -/
structure FloatOps where
  sqrt : ℚ → ℚ
  atan2 : ℚ → ℚ → ℚ
  cos : ℚ → ℚ
  sin : ℚ → ℚ
  pi : ℚ

/-- An arbitrary computable instantiation of `FloatOps`, used only to
evaluate the model at concrete inputs. -/
def ratOps : FloatOps where
  sqrt := fun _ => 0
  atan2 := fun _ _ => 0
  cos := fun _ => 0
  sin := fun _ => 0
  pi := 0

/-- The `Board` component state: `isDrawing`, `startPos`, `snapshot`,
`history`, `typingPos` (`useState` hooks) plus the canvas element. -/
structure BoardState where
  isDrawing : Bool
  startPos : Option Point
  snapshot : Option ImageData
  history : List ImageData
  typingPos : Option Point
  canvas : Canvas

/-- A canvas at the default element dimensions (300×150), blank, with a
fresh context. -/
def initialCanvas : Canvas where
  width := 300
  height := 150
  pix := fun _ _ => []
  ctx := defaultCtx

/-- The component state right after the first render, before any effect has
run. -/
def initialBoard : BoardState where
  isDrawing := false
  startPos := none
  snapshot := none
  history := []
  typingPos := none
  canvas := initialCanvas

/-- `setHistory(prev => [...prev.slice(-19), currentData])`: keep the most
recent 19 snapshots and append the new one. -/
def pushHistory (h : List ImageData) (d : ImageData) : List ImageData :=
  h.drop (h.length - 19) ++ [d]

/-- `startDrawing` (Board.tsx lines 139–183).  With the `text` tool it only
schedules `setTypingPos(pos)`.  Otherwise it captures the buffer, pushes it
onto history, records the session state, and initialises the context:
`beginPath; moveTo(pos)`, stroke style/width from the settings, round
cap/join, dash reset, compositing mode `destination-out` for the eraser and
`source-over` for every other tool, and the dash pattern
`[3·width, 2·width]` for the dashed tool. -/
def startDrawing (tool : ToolType) (settings : DrawingSettings) (pos : Point)
    (s : BoardState) : BoardState :=
  if tool = .text then
    { s with typingPos := some pos }
  else
    let currentData := getImageData s.canvas
    let ctx1 : CtxState :=
      { s.canvas.ctx with
        path := [PathCmd.moveTo pos]
        strokeStyle := settings.color
        lineWidth := settings.width
        lineCap := "round"
        lineJoin := "round"
        lineDash := []
        gco := if tool = .eraser then .destinationOut else .sourceOver }
    let ctx2 : CtxState :=
      if tool = .dashed then
        { ctx1 with lineDash := [settings.width * 3, settings.width * 2] }
      else ctx1
    { s with
      isDrawing := true
      startPos := some pos
      snapshot := some currentData
      history := pushHistory s.history currentData
      canvas := { s.canvas with ctx := ctx2 } }

/-- `drawArrowHead` (Board.tsx lines 185–197): `beginPath`, the four
path commands of the two arrow-head flanks, `stroke`. -/
def drawArrowHead (F : FloatOps) (c : Canvas) (p0 p1 : Point) : Canvas :=
  let headLength : ℚ := 15
  let dx := p1.x - p0.x
  let dy := p1.y - p0.y
  let angle := F.atan2 dy dx
  let c1 : Canvas :=
    { c with ctx := { c.ctx with path :=
        [ PathCmd.moveTo p1,
          PathCmd.lineTo ⟨p1.x - headLength * F.cos (angle - F.pi / 6),
                          p1.y - headLength * F.sin (angle - F.pi / 6)⟩,
          PathCmd.moveTo p1,
          PathCmd.lineTo ⟨p1.x - headLength * F.cos (angle + F.pi / 6),
                          p1.y - headLength * F.sin (angle + F.pi / 6)⟩ ] } }
  strokeCtx c1

/-- The per-tool body of the shape branch of `draw` (Board.tsx lines
223–277), applied to the canvas after the snapshot restore and the generic
style reset.  `a` is `startPos`, `cur` is `currentPos`. -/
def drawShape (F : FloatOps) (tool : ToolType) (a cur : Point) (c : Canvas) : Canvas :=
  match tool with
  | .line | .dashed =>
    strokeCtx { c with ctx := { c.ctx with path :=
      c.ctx.path ++ [PathCmd.moveTo a, PathCmd.lineTo cur] } }
  | .circle =>
    let radius := F.sqrt ((cur.x - a.x) ^ 2 + (cur.y - a.y) ^ 2)
    strokeCtx { c with ctx := { c.ctx with path :=
      c.ctx.path ++ [PathCmd.arc a radius 0 (2 * F.pi)] } }
  | .rect =>
    strokeRectC c a.x a.y (cur.x - a.x) (cur.y - a.y)
  | .ellipse =>
    let radiusX := |cur.x - a.x|
    let radiusY := |cur.y - a.y|
    strokeCtx { c with ctx := { c.ctx with path :=
      c.ctx.path ++ [PathCmd.ellipseCmd a radiusX radiusY 0 0 (2 * F.pi)] } }
  | .triangle =>
    strokeCtx { c with ctx := { c.ctx with path :=
      c.ctx.path ++
        [ PathCmd.moveTo ⟨(a.x + cur.x) / 2, a.y⟩,
          PathCmd.lineTo ⟨a.x, cur.y⟩,
          PathCmd.lineTo ⟨cur.x, cur.y⟩,
          PathCmd.closePath ] } }
  | .axis =>
    let centerX := (a.x + cur.x) / 2
    let centerY := (a.y + cur.y) / 2
    let cX : Canvas := strokeCtx { c with ctx := { c.ctx with path :=
      c.ctx.path ++ [PathCmd.moveTo ⟨a.x, centerY⟩, PathCmd.lineTo ⟨cur.x, centerY⟩] } }
    let cXh := drawArrowHead F cX ⟨a.x, centerY⟩ ⟨cur.x, centerY⟩
    let cY : Canvas := strokeCtx { cXh with ctx := { cXh.ctx with path :=
      [PathCmd.moveTo ⟨centerX, cur.y⟩, PathCmd.lineTo ⟨centerX, a.y⟩] } }
    drawArrowHead F cY ⟨centerX, cur.y⟩ ⟨centerX, a.y⟩
  | _ => c

/-- `draw` (Board.tsx lines 199–279).  No-op unless a session is active.
Pen/eraser extend and stroke the live path.  Every other tool (when a
pre-session snapshot exists) restores the snapshot, begins a fresh path,
resets compositing to `source-over`, re-applies stroke style/width and dash,
and renders the shape for `(startPos, currentPos)`. -/
def draw (F : FloatOps) (tool : ToolType) (settings : DrawingSettings)
    (currentPos : Point) (s : BoardState) : BoardState :=
  match s.startPos with
  | none => s
  | some startPos =>
    if s.isDrawing = false then s
    else if tool = .pen ∨ tool = .eraser then
      let c1 : Canvas :=
        { s.canvas with ctx := { s.canvas.ctx with path :=
            s.canvas.ctx.path ++ [PathCmd.lineTo currentPos] } }
      { s with canvas := strokeCtx c1 }
    else
      match s.snapshot with
      | none => s
      | some snap =>
        let c1 := putImageData s.canvas snap
        let c2 : Canvas :=
          { c1 with ctx :=
            { c1.ctx with
              path := []
              gco := .sourceOver
              strokeStyle := settings.color
              lineWidth := settings.width
              lineDash :=
                if tool = .dashed then
                  [settings.width * 3, settings.width * 2]
                else [] } }
        { s with canvas := drawShape F tool startPos currentPos c2 }

/-- `stopDrawing` (Board.tsx lines 281–288): when a session is active,
`closePath`, leave the session, and drop the in-memory snapshot. -/
def stopDrawing (s : BoardState) : BoardState :=
  if s.isDrawing then
    { s with
      canvas := { s.canvas with ctx := { s.canvas.ctx with path :=
        s.canvas.ctx.path ++ [PathCmd.closePath] } }
      isDrawing := false
      snapshot := none }
  else s

/-- JavaScript `!text.trim()` is true exactly when every character of the
text is whitespace (the string trims to empty). -/
def isBlank (text : String) : Bool :=
  text.toList.all Char.isWhitespace

/-- `handleTextComplete` (Board.tsx lines 290–310): typing mode always ends;
empty-after-trim text or absent anchor is discarded silently; otherwise the
buffer is captured and pushed, and the text is filled at the anchor with
font `bold 32px sans-serif`, fill style `settings.color`, top baseline, and
`source-over` compositing. -/
def handleTextComplete (text : String) (settings : DrawingSettings)
    (s : BoardState) : BoardState :=
  if isBlank text ∨ s.typingPos = none then
    { s with typingPos := none }
  else
    match s.typingPos with
    | none => { s with typingPos := none }
    | some tp =>
      let currentData := getImageData s.canvas
      let c1 : Canvas :=
        { s.canvas with ctx :=
          { s.canvas.ctx with
            font := "bold 32px sans-serif"
            fillStyle := settings.color
            textBaseline := "top"
            gco := .sourceOver } }
      { s with
        typingPos := none
        history := pushHistory s.history currentData
        canvas := fillTextC c1 text tp.x tp.y }

/-- The clear effect body (Board.tsx lines 89–100): capture the buffer, push
it onto history, clear the whole canvas. -/
def clearBoard (s : BoardState) : BoardState :=
  let currentData := getImageData s.canvas
  { s with
    history := pushHistory s.history currentData
    canvas := clearRectFull s.canvas }

/-- The undo effect body (Board.tsx lines 103–117): with empty history it
returns immediately; otherwise it writes the most recent snapshot back with
`putImageData` and drops it from history. -/
def undoBoard (s : BoardState) : BoardState :=
  match s.history.getLast? with
  | none => s
  | some previousState =>
    { s with
      canvas := putImageData s.canvas previousState
      history := s.history.dropLast }

/-- The `ResizeObserver` callback body (Board.tsx lines 61–81): capture the
content when the canvas has non-zero dimensions, reallocate the backing
store to the new dimensions, and put the captured content back at the
origin. -/
def resizeCanvas (w h : Nat) (c : Canvas) : Canvas :=
  let content : Option ImageData :=
    if 0 < c.width ∧ 0 < c.height then some (getImageData c) else none
  let c1 := setCanvasSize w h c
  match content with
  | some img => putImageData c1 img
  | none => c1

/-- The resize callback at the component level. -/
def resizeBoard (w h : Nat) (s : BoardState) : BoardState :=
  { s with canvas := resizeCanvas w h s.canvas }

/-- The board right after mounting.  `useEffect` bodies with a dependency
array also run once after the initial render, so the clear effect (lines
89–100) captures and pushes one snapshot of the initial canvas and clears
it; the undo effect (lines 103–117) reads the initial render's empty
`history` and returns immediately. -/
def mountBoard (s : BoardState) : BoardState :=
  clearBoard s

/-! ## Events and runs

The host (`App.tsx`) feeds the board pointer events, edge-triggered clear and
undo signals, text completion, and resize callbacks; `stepB` dispatches one
such event to the handler translated above. -/

/-- One externally observable board event. -/
inductive BEvent
  | down (tool : ToolType) (settings : DrawingSettings) (p : Point)
  | move (tool : ToolType) (settings : DrawingSettings) (p : Point)
  | up
  | clearSig
  | undoSig
  | textDone (text : String) (settings : DrawingSettings)
  | resizeSig (w h : Nat)

/-- Dispatch one event to the corresponding handler. -/
def stepB (F : FloatOps) : BEvent → BoardState → BoardState
  | .down t st p, s => startDrawing t st p s
  | .move t st p, s => draw F t st p s
  | .up, s => stopDrawing s
  | .clearSig, s => clearBoard s
  | .undoSig, s => undoBoard s
  | .textDone txt st, s => handleTextComplete txt st s
  | .resizeSig w h, s => resizeBoard w h s

/-- Process a list of events in order. -/
def runB (F : FloatOps) (evs : List BEvent) (s : BoardState) : BoardState :=
  evs.foldl (fun s e => stepB F e s) s

/-- Events that only redraw a preview or end the pointer session: shape-tool
moves and pointer-up/leave. -/
def previewEv : BEvent → Bool
  | .move t _ _ => decide (t ≠ .pen ∧ t ≠ .eraser ∧ t ≠ .text)
  | .up => true
  | _ => false

/-- `e` is a committing action in state `s`: a session begin with a drag
tool, an explicit clear, or a text completion with non-blank text while a
text anchor is pending. -/
def commitIn (e : BEvent) (s : BoardState) : Prop :=
  (∃ t st p, e = .down t st p ∧ t ≠ .text) ∨
  e = .clearSig ∨
  (∃ txt st, e = .textDone txt st ∧ isBlank txt = false ∧ s.typingPos ≠ none)

/-- The restore-then-redraw step of `draw` for the preview tools, acting on
the canvas: restore the pre-session snapshot, begin a fresh path, reset
compositing and styles, render the shape (the shape branch of Board.tsx
lines 211–278, factored over the canvas). -/
def previewApply (F : FloatOps) (t : ToolType) (st : DrawingSettings)
    (a p : Point) (snap : ImageData) (c : Canvas) : Canvas :=
  drawShape F t a p
    { putImageData c snap with ctx :=
      { c.ctx with
        path := []
        gco := GCO.sourceOver
        strokeStyle := st.color
        lineWidth := st.width
        lineDash := if t = ToolType.dashed then [st.width * 3, st.width * 2] else [] } }


/-! ## Basic facts about the canvas primitives -/

@[simp] theorem paint_width (c : Canvas) (e : PaintEvent) : (paint c e).width = c.width := rfl

@[simp] theorem paint_height (c : Canvas) (e : PaintEvent) : (paint c e).height = c.height := rfl

@[simp] theorem paint_ctx (c : Canvas) (e : PaintEvent) : (paint c e).ctx = c.ctx := rfl

@[simp] theorem putImageData_width (c : Canvas) (img : ImageData) :
    (putImageData c img).width = c.width := rfl

@[simp] theorem putImageData_height (c : Canvas) (img : ImageData) :
    (putImageData c img).height = c.height := rfl

@[simp] theorem putImageData_ctx (c : Canvas) (img : ImageData) :
    (putImageData c img).ctx = c.ctx := rfl

@[simp] theorem strokeCtx_width (c : Canvas) : (strokeCtx c).width = c.width := rfl

@[simp] theorem strokeCtx_height (c : Canvas) : (strokeCtx c).height = c.height := rfl

@[simp] theorem strokeCtx_ctx (c : Canvas) : (strokeCtx c).ctx = c.ctx := rfl

@[simp] theorem strokeRectC_width (c : Canvas) (x y w h : ℚ) :
    (strokeRectC c x y w h).width = c.width := rfl

@[simp] theorem strokeRectC_height (c : Canvas) (x y w h : ℚ) :
    (strokeRectC c x y w h).height = c.height := rfl

@[simp] theorem strokeRectC_ctx (c : Canvas) (x y w h : ℚ) :
    (strokeRectC c x y w h).ctx = c.ctx := rfl

@[simp] theorem fillTextC_width (c : Canvas) (t : String) (x y : ℚ) :
    (fillTextC c t x y).width = c.width := rfl

@[simp] theorem fillTextC_height (c : Canvas) (t : String) (x y : ℚ) :
    (fillTextC c t x y).height = c.height := rfl

@[simp] theorem clearRectFull_width (c : Canvas) : (clearRectFull c).width = c.width := rfl

@[simp] theorem clearRectFull_height (c : Canvas) : (clearRectFull c).height = c.height := rfl

@[simp] theorem getImageData_width (c : Canvas) : (getImageData c).width = c.width := rfl

@[simp] theorem getImageData_height (c : Canvas) : (getImageData c).height = c.height := rfl

theorem drawArrowHead_width (F : FloatOps) (c : Canvas) (p0 p1 : Point) :
    (drawArrowHead F c p0 p1).width = c.width := rfl

theorem drawArrowHead_height (F : FloatOps) (c : Canvas) (p0 p1 : Point) :
    (drawArrowHead F c p0 p1).height = c.height := rfl

theorem drawShape_width (F : FloatOps) (t : ToolType) (a cur : Point) (c : Canvas) :
    (drawShape F t a cur c).width = c.width := by
  cases t <;> rfl

theorem drawShape_height (F : FloatOps) (t : ToolType) (a cur : Point) (c : Canvas) :
    (drawShape F t a cur c).height = c.height := by
  cases t <;> rfl

/-- `clearRect` over the full canvas is idempotent. -/
theorem clearRectFull_idem (c : Canvas) : clearRectFull (clearRectFull c) = clearRectFull c := by
  apply Canvas.ext
  · rfl
  · rfl
  · funext i j
    simp only [clearRectFull]
    by_cases h : i < c.width ∧ j < c.height <;> simp [h]
  · rfl

/-- Restoring a full-canvas capture onto any same-sized canvas brings the
readable buffer back byte-for-byte. -/
theorem getImageData_putImageData_self (c c2 : Canvas)
    (hw : c2.width = c.width) (hh : c2.height = c.height) :
    getImageData (putImageData c2 (getImageData c)) = getImageData c := by
  apply ImageData.ext
  · simp [hw]
  · simp [hh]
  · funext i j
    simp only [getImageData, putImageData, hw, hh]
    by_cases hi : i < c.width ∧ j < c.height
    · simp [hi]
    · simp [hi]

/-! ## Facts about the history stack -/

/-- One push keeps the stack at 20 entries or fewer. -/
theorem pushHistory_length_le (h : List ImageData) (d : ImageData) :
    (pushHistory h d).length ≤ 20 := by
  unfold pushHistory
  simp [List.length_drop]
  omega

/-- Pushing `snaps` in order onto an empty stack leaves exactly the most
recent 20 snapshots, in chronological order. -/
theorem foldl_pushHistory (snaps : List ImageData) :
    List.foldl pushHistory [] snaps = snaps.drop (snaps.length - 20) := by
  induction snaps using List.reverseRecOn with
  | nil => simp
  | append_singleton l a ih =>
    rw [List.foldl_append, List.foldl_cons, List.foldl_nil, ih]
    unfold pushHistory
    rcases le_or_lt l.length 19 with hl | hl
    · have h1 : l.length - 20 = 0 := by omega
      rw [h1, List.drop_zero]
      have h2 : l.length - 19 = 0 := by omega
      rw [h2, List.drop_zero]
      have h3 : (l ++ [a]).length - 20 = 0 := by
        simp only [List.length_append, List.length_singleton]; omega
      rw [h3, List.drop_zero]
    · have h20 : (List.drop (l.length - 20) l).length = 20 := by
        rw [List.length_drop]; omega
      rw [h20]
      have h1 : (20 : ℕ) - 19 = 1 := rfl
      rw [h1, List.drop_drop]
      have h3 : l.length - 20 + 1 = l.length - 19 := by omega
      rw [h3]
      have h4 : (l ++ [a]).length - 20 = l.length - 19 := by
        simp only [List.length_append, List.length_singleton]; omega
      rw [h4, List.drop_append_of_le_length (by omega)]

/-- The most recently pushed snapshot sits on top of the stack. -/
theorem pushHistory_getLast? (h : List ImageData) (d : ImageData) :
    (pushHistory h d).getLast? = some d := by
  unfold pushHistory
  exact List.getLast?_concat _

/-- A push always leaves a non-empty stack. -/
theorem pushHistory_ne_nil (h : List ImageData) (d : ImageData) :
    pushHistory h d ≠ [] := by
  unfold pushHistory
  simp

/-! ## Per-handler preservation lemmas -/

theorem draw_history (F : FloatOps) (t : ToolType) (st : DrawingSettings)
    (p : Point) (s : BoardState) : (draw F t st p s).history = s.history := by
  unfold draw
  cases s.startPos <;> simp
  split
  · rfl
  split
  · rfl
  cases s.snapshot <;> simp

theorem draw_width (F : FloatOps) (t : ToolType) (st : DrawingSettings)
    (p : Point) (s : BoardState) : (draw F t st p s).canvas.width = s.canvas.width := by
  unfold draw
  cases s.startPos <;> simp
  split
  · rfl
  split
  · simp [strokeCtx]
  cases s.snapshot <;> simp [drawShape_width]

theorem draw_height (F : FloatOps) (t : ToolType) (st : DrawingSettings)
    (p : Point) (s : BoardState) : (draw F t st p s).canvas.height = s.canvas.height := by
  unfold draw
  cases s.startPos <;> simp
  split
  · rfl
  split
  · simp [strokeCtx]
  cases s.snapshot <;> simp [drawShape_height]

theorem stopDrawing_history (s : BoardState) : (stopDrawing s).history = s.history := by
  unfold stopDrawing
  split <;> rfl

theorem stopDrawing_width (s : BoardState) :
    (stopDrawing s).canvas.width = s.canvas.width := by
  unfold stopDrawing
  split <;> rfl

theorem stopDrawing_height (s : BoardState) :
    (stopDrawing s).canvas.height = s.canvas.height := by
  unfold stopDrawing
  split <;> rfl

theorem startDrawing_history (t : ToolType) (st : DrawingSettings) (p : Point)
    (s : BoardState) (ht : t ≠ .text) :
    (startDrawing t st p s).history = pushHistory s.history (getImageData s.canvas) := by
  unfold startDrawing
  simp [ht]

theorem startDrawing_dims (t : ToolType) (st : DrawingSettings) (p : Point)
    (s : BoardState) :
    (startDrawing t st p s).canvas.width = s.canvas.width ∧
    (startDrawing t st p s).canvas.height = s.canvas.height := by
  unfold startDrawing
  split <;> simp

theorem clearBoard_history (s : BoardState) :
    (clearBoard s).history = pushHistory s.history (getImageData s.canvas) := rfl

theorem clearBoard_dims (s : BoardState) :
    (clearBoard s).canvas.width = s.canvas.width ∧
    (clearBoard s).canvas.height = s.canvas.height := ⟨rfl, rfl⟩

theorem handleTextComplete_history (txt : String) (st : DrawingSettings)
    (s : BoardState) (tp : Point) (hne : isBlank txt = false) (htp : s.typingPos = some tp) :
    (handleTextComplete txt st s).history =
      pushHistory s.history (getImageData s.canvas) := by
  unfold handleTextComplete
  simp [hne, htp]

theorem handleTextComplete_history_noop (txt : String) (st : DrawingSettings)
    (s : BoardState) (h : isBlank txt = true ∨ s.typingPos = none) :
    (handleTextComplete txt st s).history = s.history := by
  unfold handleTextComplete
  simp [h]

theorem handleTextComplete_dims (txt : String) (st : DrawingSettings)
    (s : BoardState) :
    (handleTextComplete txt st s).canvas.width = s.canvas.width ∧
    (handleTextComplete txt st s).canvas.height = s.canvas.height := by
  unfold handleTextComplete
  split
  · exact ⟨rfl, rfl⟩
  split
  · exact ⟨rfl, rfl⟩
  · simp [fillTextC]

theorem undoBoard_history (s : BoardState) :
    (undoBoard s).history = s.history.dropLast := by
  unfold undoBoard
  cases h : s.history.getLast? with
  | none =>
    have : s.history = [] := by
      cases hl : s.history with
      | nil => rfl
      | cons x xs => rw [hl] at h; simp [List.getLast?_eq_getLast] at h
    simp [this]
  | some prev => rfl

theorem previewEv_preserves (F : FloatOps) (e : BEvent) (s : BoardState)
    (he : previewEv e = true) :
    (stepB F e s).history = s.history ∧
    (stepB F e s).canvas.width = s.canvas.width ∧
    (stepB F e s).canvas.height = s.canvas.height := by
  cases e with
  | move t st p =>
    exact ⟨draw_history F t st p s, draw_width F t st p s, draw_height F t st p s⟩
  | up => exact ⟨stopDrawing_history s, stopDrawing_width s, stopDrawing_height s⟩
  | down t st p => simp [previewEv] at he
  | clearSig => simp [previewEv] at he
  | undoSig => simp [previewEv] at he
  | textDone txt st => simp [previewEv] at he
  | resizeSig w h => simp [previewEv] at he

theorem runB_preview_preserves (F : FloatOps) (evs : List BEvent) (s : BoardState)
    (hp : ∀ e ∈ evs, previewEv e = true) :
    (runB F evs s).history = s.history ∧
    (runB F evs s).canvas.width = s.canvas.width ∧
    (runB F evs s).canvas.height = s.canvas.height := by
  induction evs generalizing s with
  | nil => exact ⟨rfl, rfl, rfl⟩
  | cons e evs ih =>
    have h1 := previewEv_preserves F e s (hp e (by simp))
    have h2 := ih (stepB F e s) (fun e' he' => hp e' (by simp [he']))
    simp only [runB, List.foldl_cons] at h2 ⊢
    exact ⟨h2.1.trans h1.1, h2.2.1.trans h1.2.1, h2.2.2.trans h1.2.2⟩

theorem commit_step (F : FloatOps) (e : BEvent) (s : BoardState) (hc : commitIn e s) :
    (stepB F e s).history = pushHistory s.history (getImageData s.canvas) ∧
    (stepB F e s).canvas.width = s.canvas.width ∧
    (stepB F e s).canvas.height = s.canvas.height := by
  rcases hc with ⟨t, st, p, rfl, ht⟩ | rfl | ⟨txt, st, rfl, hne, htp⟩
  · exact ⟨startDrawing_history t st p s ht,
      (startDrawing_dims t st p s).1, (startDrawing_dims t st p s).2⟩
  · exact ⟨clearBoard_history s, (clearBoard_dims s).1, (clearBoard_dims s).2⟩
  · obtain ⟨tp, htp'⟩ := Option.ne_none_iff_exists'.mp htp
    exact ⟨handleTextComplete_history txt st s tp hne htp',
      (handleTextComplete_dims txt st s).1, (handleTextComplete_dims txt st s).2⟩

/-- After `k + 1` consecutive clears, the canvas is cleared and the history
is the result of pushing the pre-clear snapshots in order. -/
theorem clearBoard_iterate (s0 : BoardState) (k : ℕ) :
    (clearBoard^[k + 1]) s0 =
      { s0 with
        history := List.foldl pushHistory s0.history
          (getImageData s0.canvas ::
            List.replicate k (getImageData (clearRectFull s0.canvas)))
        canvas := clearRectFull s0.canvas } := by
  induction k with
  | zero => rfl
  | succ k ih =>
    rw [Function.iterate_succ_apply', ih]
    have hrep : getImageData s0.canvas ::
        List.replicate (k + 1) (getImageData (clearRectFull s0.canvas))
        = (getImageData s0.canvas ::
            List.replicate k (getImageData (clearRectFull s0.canvas)))
          ++ [getImageData (clearRectFull s0.canvas)] := by
      rw [List.replicate_succ']
      rfl
    rw [hrep, List.foldl_append]
    simp only [List.foldl_cons, List.foldl_nil]
    unfold clearBoard
    rw [clearRectFull_idem]

/-! ## C4 -/

/-- C4: an undo request with an empty history stack is a harmless no-op —
the whole board state (raster buffer included) is unchanged, and the handler
returns without surfacing anything. -/
theorem undo_empty_history_noop (s : BoardState) (h : s.history = []) :
    undoBoard s = s := by
  unfold undoBoard
  simp [h]

theorem undo_empty_history_noop_witness : undoBoard initialBoard = initialBoard :=
  undo_empty_history_noop initialBoard rfl

/-! ## C10 -/

/-- C10: with no active pointer session (no recorded anchor, drawing flag
down), a pointer-move and a pointer-up/leave each leave the entire board
state — raster buffer, history stack and session state — unchanged. -/
theorem idle_pointer_events_noop (F : FloatOps) (t : ToolType)
    (st : DrawingSettings) (p : Point) (s : BoardState)
    (hd : s.isDrawing = false) (ha : s.startPos = none) :
    draw F t st p s = s ∧ stopDrawing s = s := by
  constructor
  · unfold draw
    rw [ha]
  · unfold stopDrawing
    rw [hd]
    simp

theorem idle_pointer_events_noop_witness :
    draw ratOps ToolType.pen ⟨"#FFFFFF", 4, 1⟩ ⟨5, 5⟩ initialBoard = initialBoard ∧
    stopDrawing initialBoard = initialBoard :=
  idle_pointer_events_noop ratOps ToolType.pen ⟨"#FFFFFF", 4, 1⟩ ⟨5, 5⟩
    initialBoard rfl rfl

/-! ## C8 -/

/-- C8: resizing captures the buffer when it has non-zero dimensions,
reallocates to the new dimensions, and restores the capture at the origin:
pixels inside both the old and new bounds keep their content, content
outside the new bounds is clipped away, and newly exposed pixels are
transparent.  A zero-dimension buffer is not captured, so the new buffer is
entirely transparent. -/
theorem resize_preserves_committed_content (w h : Nat) (c : Canvas) :
    (resizeCanvas w h c).width = w ∧
    (resizeCanvas w h c).height = h ∧
    (0 < c.width → 0 < c.height → ∀ i j, i < w → j < h →
      (resizeCanvas w h c).pix i j =
        if i < c.width ∧ j < c.height then c.pix i j else []) ∧
    (¬ (0 < c.width ∧ 0 < c.height) → ∀ i j, (resizeCanvas w h c).pix i j = []) := by
  by_cases hc : 0 < c.width ∧ 0 < c.height
  · refine ⟨?_, ?_, ?_, ?_⟩
    · simp [resizeCanvas, hc, putImageData, setCanvasSize]
    · simp [resizeCanvas, hc, putImageData, setCanvasSize]
    · intro _ _ i j hi hj
      simp only [resizeCanvas, if_pos hc, putImageData, setCanvasSize, getImageData]
      by_cases hij : i < c.width ∧ j < c.height
      · simp [hij, hi, hj]
      · simp [hij, hi, hj]
    · intro hcon
      exact absurd hc hcon
  · refine ⟨?_, ?_, ?_, ?_⟩
    · simp [resizeCanvas, hc, setCanvasSize]
    · simp [resizeCanvas, hc, setCanvasSize]
    · intro h1 h2
      exact absurd ⟨h1, h2⟩ hc
    · intro _ i j
      simp [resizeCanvas, hc, setCanvasSize]

theorem resize_preserves_committed_content_witness :
    (resizeCanvas 2 3 initialCanvas).width = 2 ∧
    (resizeCanvas 2 3 initialCanvas).pix 1 2 =
      (if 1 < initialCanvas.width ∧ 2 < initialCanvas.height then
        initialCanvas.pix 1 2 else []) :=
  ⟨(resize_preserves_committed_content 2 3 initialCanvas).1,
   (resize_preserves_committed_content 2 3 initialCanvas).2.2.1
     (by decide) (by decide) 1 2 (by decide) (by decide)⟩

/-! ## C1 -/

/-- C1: the history stack is bounded to 20 snapshots with FIFO eviction —
every push leaves at most 20 entries; pushing any chronological sequence of
snapshots onto an empty stack keeps exactly the most recent 20 in order
(oldest evicted first); and after 25 consecutive clears the stack holds
exactly the 20 snapshots captured by clears #6 through #25 (each of which is
a capture of the already-cleared canvas). -/
theorem history_bound_20_fifo :
    (∀ (h : List ImageData) (d : ImageData), (pushHistory h d).length ≤ 20) ∧
    (∀ snaps : List ImageData,
      List.foldl pushHistory [] snaps = snaps.drop (snaps.length - 20)) ∧
    (∀ s0 : BoardState, s0.history = [] →
      (clearBoard^[25] s0).history =
        List.replicate 20 (getImageData (clearRectFull s0.canvas)) ∧
      (clearBoard^[25] s0).history.length = 20) := by
  refine ⟨pushHistory_length_le, foldl_pushHistory, ?_⟩
  intro s0 h0
  have h := clearBoard_iterate s0 24
  have h25 : (25 : ℕ) = 24 + 1 := rfl
  rw [h25, h]
  simp only [h0]
  rw [foldl_pushHistory]
  have hlen : (getImageData s0.canvas ::
      List.replicate 24 (getImageData (clearRectFull s0.canvas))).length = 25 := by
    simp
  rw [hlen]
  have hdrop : (getImageData s0.canvas ::
      List.replicate 24 (getImageData (clearRectFull s0.canvas))).drop (25 - 20) =
      List.replicate 20 (getImageData (clearRectFull s0.canvas)) := by
    have h5 : (25 : ℕ) - 20 = 4 + 1 := rfl
    rw [h5, List.drop_succ_cons, List.drop_replicate]
  rw [hdrop]
  simp

theorem history_bound_20_fifo_witness :
    (pushHistory [] (getImageData initialCanvas)).length ≤ 20 ∧
    (clearBoard^[25] initialBoard).history =
      List.replicate 20 (getImageData (clearRectFull initialBoard.canvas)) :=
  ⟨history_bound_20_fifo.1 [] (getImageData initialCanvas),
   (history_bound_20_fifo.2.2 initialBoard rfl).1⟩

/-! ## C3 -/

/-- C3 counterexample: the clear effect (`useEffect` keyed on
`clearTrigger`, Board.tsx lines 89–100) also runs once when the component
mounts, so a snapshot is pushed onto the history stack with no committing
user action having occurred: starting from the freshly rendered board with
empty history, the mounted board already holds one snapshot. -/
theorem mount_pushes_snapshot_cx :
    initialBoard.history = [] ∧
    (mountBoard initialBoard).history = [getImageData initialBoard.canvas] := by
  exact ⟨rfl, rfl⟩

/-- C3 (amended): a snapshot is pushed exactly once per committing user
action — session begin with a drag tool, non-blank text commit, explicit
clear — and exactly once when the board mounts (the clear effect also runs
on the initial render); preview redraws, pointer-up, resize, a text-tool
pointer-down and a blank text completion never push, and undo only ever
removes the most recent entry. -/
theorem push_exactly_once_per_commit :
    (∀ t st p s, t ≠ ToolType.text →
      (startDrawing t st p s).history = pushHistory s.history (getImageData s.canvas)) ∧
    (∀ st p s, (startDrawing ToolType.text st p s).history = s.history) ∧
    (∀ F t st p s, (draw F t st p s).history = s.history) ∧
    (∀ s, (stopDrawing s).history = s.history) ∧
    (∀ w h s, (resizeBoard w h s).history = s.history) ∧
    (∀ s, (undoBoard s).history = s.history.dropLast) ∧
    (∀ txt st s tp, isBlank txt = false → s.typingPos = some tp →
      (handleTextComplete txt st s).history =
        pushHistory s.history (getImageData s.canvas)) ∧
    (∀ txt st s, isBlank txt = true ∨ s.typingPos = none →
      (handleTextComplete txt st s).history = s.history) ∧
    (∀ s, (clearBoard s).history = pushHistory s.history (getImageData s.canvas)) ∧
    (∀ s, (mountBoard s).history = pushHistory s.history (getImageData s.canvas)) := by
  refine ⟨startDrawing_history, ?_, draw_history, stopDrawing_history,
    fun _ _ _ => rfl, undoBoard_history, handleTextComplete_history,
    handleTextComplete_history_noop, clearBoard_history,
    fun s => clearBoard_history s⟩
  intro st p s
  unfold startDrawing
  simp

theorem push_exactly_once_per_commit_witness :
    (startDrawing ToolType.pen ⟨"#FFFFFF", 4, 1⟩ ⟨10, 10⟩ initialBoard).history =
      pushHistory initialBoard.history (getImageData initialBoard.canvas) ∧
    (handleTextComplete "A" ⟨"#FFFFFF", 4, 1⟩
        { initialBoard with typingPos := some ⟨20, 20⟩ }).history =
      pushHistory ({ initialBoard with typingPos := some (⟨20, 20⟩ : Point) }).history
        (getImageData ({ initialBoard with typingPos := some (⟨20, 20⟩ : Point) }).canvas) ∧
    (handleTextComplete "  " ⟨"#FFFFFF", 4, 1⟩ initialBoard).history =
      initialBoard.history :=
  ⟨push_exactly_once_per_commit.1 ToolType.pen ⟨"#FFFFFF", 4, 1⟩ ⟨10, 10⟩
      initialBoard (by decide),
   push_exactly_once_per_commit.2.2.2.2.2.2.1 "A" ⟨"#FFFFFF", 4, 1⟩
      { initialBoard with typingPos := some ⟨20, 20⟩ } ⟨20, 20⟩ (by decide) rfl,
   push_exactly_once_per_commit.2.2.2.2.2.2.2.1 "  " ⟨"#FFFFFF", 4, 1⟩
      initialBoard (Or.inr rfl)⟩

/-! ## C2 -/

/-- C2: for any committing action, the snapshot pushed by that action is the
capture of the pre-action buffer; after any number of preview-only redraws
(and pointer-up), that snapshot is still on top of the stack, the next undo
removes exactly it, and the restored buffer reads back byte-identical to the
pre-action buffer. -/
theorem undo_round_trip (F : FloatOps) (s : BoardState) (e : BEvent)
    (evs : List BEvent) (hc : commitIn e s)
    (hp : ∀ e' ∈ evs, previewEv e' = true) :
    (runB F evs (stepB F e s)).history.getLast? = some (getImageData s.canvas) ∧
    (undoBoard (runB F evs (stepB F e s))).history =
      (runB F evs (stepB F e s)).history.dropLast ∧
    getImageData (undoBoard (runB F evs (stepB F e s))).canvas =
      getImageData s.canvas := by
  obtain ⟨hh, hw, hhh⟩ := commit_step F e s hc
  obtain ⟨ph, pw, phh⟩ := runB_preview_preserves F evs (stepB F e s) hp
  have hlast : (runB F evs (stepB F e s)).history.getLast? =
      some (getImageData s.canvas) := by
    rw [ph, hh, pushHistory_getLast?]
  refine ⟨hlast, undoBoard_history _, ?_⟩
  have hundo : undoBoard (runB F evs (stepB F e s)) =
      { runB F evs (stepB F e s) with
        canvas := putImageData (runB F evs (stepB F e s)).canvas
          (getImageData s.canvas)
        history := (runB F evs (stepB F e s)).history.dropLast } := by
    unfold undoBoard
    rw [hlast]
  rw [hundo]
  exact getImageData_putImageData_self s.canvas _ (pw.trans hw) (phh.trans hhh)

theorem undo_round_trip_witness :
    (runB ratOps [BEvent.move ToolType.rect ⟨"#FFFFFF", 4, 1⟩ ⟨30, 30⟩, BEvent.up]
        (stepB ratOps BEvent.clearSig initialBoard)).history.getLast? =
      some (getImageData initialBoard.canvas) ∧
    getImageData (undoBoard (runB ratOps
        [BEvent.move ToolType.rect ⟨"#FFFFFF", 4, 1⟩ ⟨30, 30⟩, BEvent.up]
        (stepB ratOps BEvent.clearSig initialBoard))).canvas =
      getImageData initialBoard.canvas :=
  ⟨(undo_round_trip ratOps initialBoard BEvent.clearSig
      [BEvent.move ToolType.rect ⟨"#FFFFFF", 4, 1⟩ ⟨30, 30⟩, BEvent.up]
      (Or.inr (Or.inl rfl)) (by decide)).1,
   (undo_round_trip ratOps initialBoard BEvent.clearSig
      [BEvent.move ToolType.rect ⟨"#FFFFFF", 4, 1⟩ ⟨30, 30⟩, BEvent.up]
      (Or.inr (Or.inl rfl)) (by decide)).2.2⟩

/-! ## C6 -/

theorem drawShape_ctx (F : FloatOps) (t : ToolType) (a cur : Point) (c : Canvas) :
    ∃ pth, (drawShape F t a cur c).ctx = { c.ctx with path := pth } := by
  cases t <;> exact ⟨_, rfl⟩

theorem drawShape_ctx_gco (F : FloatOps) (t : ToolType) (a cur : Point) (c : Canvas) :
    (drawShape F t a cur c).ctx.gco = c.ctx.gco := by
  obtain ⟨pth, h⟩ := drawShape_ctx F t a cur c
  rw [h]

/-- C6: the eraser session runs entirely under destination-out compositing —
session begin with the eraser sets destination-out, every eraser move keeps
the mode and rasterizes its stroke with it — while session begin with any
other drag tool explicitly resets the mode to source-over, and every
shape-preview redraw re-asserts source-over, so a stale eraser mode never
leaks into a later stroke or shape. -/
theorem compositing_discipline :
    (∀ t st p s, t ≠ ToolType.text →
      (startDrawing t st p s).canvas.ctx.gco =
        if t = ToolType.eraser then GCO.destinationOut else GCO.sourceOver) ∧
    (∀ F st p s a, s.isDrawing = true → s.startPos = some a →
      (draw F ToolType.eraser st p s).canvas.ctx.gco = s.canvas.ctx.gco ∧
      (∀ i j, i < s.canvas.width → j < s.canvas.height →
        (draw F ToolType.eraser st p s).canvas.pix i j =
          PaintEvent.strokePath (s.canvas.ctx.path ++ [PathCmd.lineTo p])
            (styleOf s.canvas.ctx) :: s.canvas.pix i j)) ∧
    (∀ F t st p s a snap, s.isDrawing = true → s.startPos = some a →
      s.snapshot = some snap → t ≠ ToolType.pen → t ≠ ToolType.eraser →
      (draw F t st p s).canvas.ctx.gco = GCO.sourceOver) := by
  refine ⟨?_, ?_, ?_⟩
  · intro t st p s ht
    unfold startDrawing
    simp only [if_neg ht]
    by_cases hdash : t = ToolType.dashed
    · subst hdash
      simp
    · simp [hdash]
  · intro F st p s a hd ha
    unfold draw
    rw [ha]
    simp only [hd]
    constructor
    · simp
    · intro i j hi hj
      simp [strokeCtx, paint, styleOf, hi, hj]
  · intro F t st p s a snap hd ha hs hp he
    have hor : ¬ (t = ToolType.pen ∨ t = ToolType.eraser) := by
      rintro (h | h) <;> [exact hp h; exact he h]
    unfold draw
    rw [ha, hs]
    simp [hd, hor, drawShape_ctx_gco]

theorem compositing_discipline_witness :
    (startDrawing ToolType.eraser ⟨"#FFFFFF", 4, 1⟩ ⟨1, 1⟩ initialBoard).canvas.ctx.gco =
      (if ToolType.eraser = ToolType.eraser then GCO.destinationOut else GCO.sourceOver) ∧
    (draw ratOps ToolType.rect ⟨"#FFFFFF", 4, 1⟩ ⟨9, 9⟩
        (startDrawing ToolType.rect ⟨"#FFFFFF", 4, 1⟩ ⟨1, 1⟩
          (startDrawing ToolType.eraser ⟨"#FFFFFF", 4, 1⟩ ⟨1, 1⟩
            initialBoard))).canvas.ctx.gco = GCO.sourceOver :=
  ⟨compositing_discipline.1 ToolType.eraser ⟨"#FFFFFF", 4, 1⟩ ⟨1, 1⟩ initialBoard
      (by decide),
   compositing_discipline.2.2 ratOps ToolType.rect ⟨"#FFFFFF", 4, 1⟩ ⟨9, 9⟩ _
      ⟨1, 1⟩ (getImageData (startDrawing ToolType.eraser ⟨"#FFFFFF", 4, 1⟩ ⟨1, 1⟩
        initialBoard).canvas) rfl rfl rfl (by decide) (by decide)⟩

/-! ## C7 -/

/-- C7: completing a text entry with non-blank text pushes exactly one
pre-commit snapshot and then fills the text at the anchor — fixed
`bold 32px sans-serif` face, top baseline, `settings.color` fill, normal
compositing, fill-only — while a blank (empty or whitespace-only) completion
discards silently, leaving everything but the typing flag unchanged; the
commit is invariant under `settings.width` and `settings.opacity`. -/
theorem text_commit_spec :
    (∀ txt st s, isBlank txt = true →
      handleTextComplete txt st s = { s with typingPos := none }) ∧
    (∀ txt st s, s.typingPos = none →
      handleTextComplete txt st s = { s with typingPos := none }) ∧
    (∀ txt st s tp, isBlank txt = false → s.typingPos = some tp →
      (handleTextComplete txt st s).history =
        pushHistory s.history (getImageData s.canvas) ∧
      (handleTextComplete txt st s).typingPos = none ∧
      (∀ i j, i < s.canvas.width → j < s.canvas.height →
        (handleTextComplete txt st s).canvas.pix i j =
          PaintEvent.fillTextEvt txt tp.x tp.y "bold 32px sans-serif" st.color
            "top" GCO.sourceOver s.canvas.ctx.globalAlpha :: s.canvas.pix i j)) ∧
    (∀ txt st st' s, st.color = st'.color →
      handleTextComplete txt st s = handleTextComplete txt st' s) := by
  refine ⟨?_, ?_, ?_, ?_⟩
  · intro txt st s hb
    unfold handleTextComplete
    simp [hb]
  · intro txt st s htp
    unfold handleTextComplete
    simp [htp]
  · intro txt st s tp hb htp
    unfold handleTextComplete
    simp only [hb, htp, Bool.false_eq_true, false_or, reduceCtorEq, if_false]
    refine ⟨?_, ?_, ?_⟩
    · simp
    · simp
    · intro i j hi hj
      simp [fillTextC, paint, hi, hj]
  · intro txt st st' s hcol
    obtain ⟨c, w, o⟩ := st
    obtain ⟨c', w', o'⟩ := st'
    simp only at hcol
    subst hcol
    rfl

theorem text_commit_spec_witness :
    handleTextComplete " " ⟨"#FFFFFF", 4, 1⟩ initialBoard =
      { initialBoard with typingPos := none } ∧
    (handleTextComplete "A" ⟨"#FFFFFF", 4, 1⟩
        { initialBoard with typingPos := some ⟨20, 20⟩ }).canvas.pix 5 7 =
      PaintEvent.fillTextEvt "A" 20 20 "bold 32px sans-serif" "#FFFFFF" "top"
        GCO.sourceOver initialBoard.canvas.ctx.globalAlpha ::
        initialBoard.canvas.pix 5 7 :=
  ⟨text_commit_spec.1 " " ⟨"#FFFFFF", 4, 1⟩ initialBoard (by decide),
   (text_commit_spec.2.2.1 "A" ⟨"#FFFFFF", 4, 1⟩
      { initialBoard with typingPos := some ⟨20, 20⟩ } ⟨20, 20⟩
      (by decide) rfl).2.2 5 7 (by decide) (by decide)⟩

/-! ## C9 -/

/-- C9 counterexample: `settings.opacity` does not reach the rendered
pixels — the engine never assigns `globalAlpha` or otherwise reads
`opacity` — so a stroke begun and drawn with opacity 1 yields the exact same
board state (pixels included) as one with opacity 1/2, although the two
settings differ in opacity. -/
theorem opacity_not_applied_cx :
    (⟨"#FFFFFF", 4, 1⟩ : DrawingSettings).opacity ≠
      (⟨"#FFFFFF", 4, 1/2⟩ : DrawingSettings).opacity ∧
    startDrawing ToolType.pen ⟨"#FFFFFF", 4, 1⟩ ⟨10, 10⟩ initialBoard =
      startDrawing ToolType.pen ⟨"#FFFFFF", 4, 1/2⟩ ⟨10, 10⟩ initialBoard ∧
    draw ratOps ToolType.pen ⟨"#FFFFFF", 4, 1⟩ ⟨50, 50⟩
        (startDrawing ToolType.pen ⟨"#FFFFFF", 4, 1⟩ ⟨10, 10⟩ initialBoard) =
      draw ratOps ToolType.pen ⟨"#FFFFFF", 4, 1/2⟩ ⟨50, 50⟩
        (startDrawing ToolType.pen ⟨"#FFFFFF", 4, 1/2⟩ ⟨10, 10⟩ initialBoard) :=
  ⟨by norm_num, rfl, rfl⟩

/-- C9 (amended): `settings.color` and `settings.width` apply to every new
committed mutation (stroke style and line width of every session), and the
text commit uses `settings.color`; but `settings.opacity` is never consumed —
every handler is invariant under changes to it, so rendered pixels do not
reflect opacity. -/
theorem settings_color_width_opacity :
    (∀ t st p s o, startDrawing t { st with opacity := o } p s =
      startDrawing t st p s) ∧
    (∀ F t st p s o, draw F t { st with opacity := o } p s = draw F t st p s) ∧
    (∀ txt st s o, handleTextComplete txt { st with opacity := o } s =
      handleTextComplete txt st s) ∧
    (∀ t st p s, t ≠ ToolType.text →
      (startDrawing t st p s).canvas.ctx.strokeStyle = st.color ∧
      (startDrawing t st p s).canvas.ctx.lineWidth = st.width) ∧
    (∀ txt st s tp, isBlank txt = false → s.typingPos = some tp →
      (handleTextComplete txt st s).canvas.ctx.fillStyle = st.color ∧
      (∀ i j, i < s.canvas.width → j < s.canvas.height →
        (handleTextComplete txt st s).canvas.pix i j =
          PaintEvent.fillTextEvt txt tp.x tp.y "bold 32px sans-serif" st.color
            "top" GCO.sourceOver s.canvas.ctx.globalAlpha :: s.canvas.pix i j)) := by
  refine ⟨?_, ?_, ?_, ?_, ?_⟩
  · intro t st p s o
    obtain ⟨c, w, o0⟩ := st
    rfl
  · intro F t st p s o
    obtain ⟨c, w, o0⟩ := st
    rfl
  · intro txt st s o
    obtain ⟨c, w, o0⟩ := st
    rfl
  · intro t st p s ht
    unfold startDrawing
    simp only [if_neg ht]
    by_cases hdash : t = ToolType.dashed
    · subst hdash
      simp
    · simp [hdash]
  · intro txt st s tp hb htp
    unfold handleTextComplete
    simp only [hb, htp, Bool.false_eq_true, false_or, reduceCtorEq, if_false]
    refine ⟨?_, ?_⟩
    · rfl
    · intro i j hi hj
      simp [fillTextC, paint, hi, hj]

theorem settings_color_width_opacity_witness :
    (startDrawing ToolType.pen ⟨"#FFFFFF", 4, 1⟩ ⟨10, 10⟩
        initialBoard).canvas.ctx.strokeStyle =
      (⟨"#FFFFFF", 4, 1⟩ : DrawingSettings).color ∧
    (startDrawing ToolType.pen ⟨"#FFFFFF", 4, 1⟩ ⟨10, 10⟩
        initialBoard).canvas.ctx.lineWidth =
      (⟨"#FFFFFF", 4, 1⟩ : DrawingSettings).width ∧
    (handleTextComplete "A" ⟨"#10B981", 4, 1⟩
        { initialBoard with typingPos := some ⟨20, 20⟩ }).canvas.ctx.fillStyle =
      (⟨"#10B981", 4, 1⟩ : DrawingSettings).color :=
  ⟨(settings_color_width_opacity.2.2.2.1 ToolType.pen ⟨"#FFFFFF", 4, 1⟩ ⟨10, 10⟩
      initialBoard (by decide)).1,
   (settings_color_width_opacity.2.2.2.1 ToolType.pen ⟨"#FFFFFF", 4, 1⟩ ⟨10, 10⟩
      initialBoard (by decide)).2,
   (settings_color_width_opacity.2.2.2.2 "A" ⟨"#10B981", 4, 1⟩
      { initialBoard with typingPos := some ⟨20, 20⟩ } ⟨20, 20⟩
      (by decide) rfl).1⟩

/-! ## C5 -/

theorem paint_pix_outside (c : Canvas) (e : PaintEvent) (i j : ℕ)
    (h : ¬ (i < c.width ∧ j < c.height)) : (paint c e).pix i j = c.pix i j := by
  simp [paint, h]

theorem drawShape_pix_outside (F : FloatOps) (t : ToolType) (a cur : Point)
    (c : Canvas) (i j : ℕ) (h : ¬ (i < c.width ∧ j < c.height)) :
    (drawShape F t a cur c).pix i j = c.pix i j := by
  cases t <;>
    simp [drawShape, strokeCtx, strokeRectC, drawArrowHead, paint, h]

theorem previewApply_width (F : FloatOps) (t : ToolType) (st : DrawingSettings)
    (a p : Point) (snap : ImageData) (c : Canvas) :
    (previewApply F t st a p snap c).width = c.width := by
  unfold previewApply
  rw [drawShape_width]
  rfl

theorem previewApply_height (F : FloatOps) (t : ToolType) (st : DrawingSettings)
    (a p : Point) (snap : ImageData) (c : Canvas) :
    (previewApply F t st a p snap c).height = c.height := by
  unfold previewApply
  rw [drawShape_height]
  rfl

theorem previewApply_ctx (F : FloatOps) (t : ToolType) (st : DrawingSettings)
    (a p : Point) (snap : ImageData) (c : Canvas) :
    ∃ pth, (previewApply F t st a p snap c).ctx =
      { c.ctx with
        path := pth
        gco := GCO.sourceOver
        strokeStyle := st.color
        lineWidth := st.width
        lineDash := if t = ToolType.dashed then [st.width * 3, st.width * 2] else [] } := by
  unfold previewApply
  obtain ⟨pth, h⟩ := drawShape_ctx F t a p
    { putImageData c snap with ctx :=
      { c.ctx with
        path := []
        gco := GCO.sourceOver
        strokeStyle := st.color
        lineWidth := st.width
        lineDash := if t = ToolType.dashed then [st.width * 3, st.width * 2] else [] } }
  exact ⟨pth, by rw [h]⟩

theorem previewApply_pix_outside (F : FloatOps) (t : ToolType) (st : DrawingSettings)
    (a p : Point) (snap : ImageData) (c : Canvas) (i j : ℕ)
    (h : ¬ (i < c.width ∧ j < c.height)) :
    (previewApply F t st a p snap c).pix i j = c.pix i j := by
  have h2 : ¬ (i < snap.width ∧ j < snap.height ∧ i < c.width ∧ j < c.height) := by
    rintro ⟨-, -, hA, hB⟩
    exact h ⟨hA, hB⟩
  unfold previewApply
  refine (drawShape_pix_outside F t a p _ i j ?_).trans ?_
  · exact h
  · simp [putImageData, h2]

/-- Restore-then-redraw is stable: applied to its own output (same snapshot,
same anchor and current point, same settings), it reproduces that output
exactly. -/
theorem previewApply_stable (F : FloatOps) (t : ToolType) (st : DrawingSettings)
    (a p : Point) (snap : ImageData) (c : Canvas)
    (hw : snap.width = c.width) (hh : snap.height = c.height) :
    previewApply F t st a p snap (previewApply F t st a p snap c) =
      previewApply F t st a p snap c := by
  obtain ⟨pth, hctx⟩ := previewApply_ctx F t st a p snap c
  have hwR := previewApply_width F t st a p snap c
  have hhR := previewApply_height F t st a p snap c
  have hbase :
      ({ putImageData (previewApply F t st a p snap c) snap with ctx :=
        { (previewApply F t st a p snap c).ctx with
          path := []
          gco := GCO.sourceOver
          strokeStyle := st.color
          lineWidth := st.width
          lineDash := if t = ToolType.dashed then [st.width * 3, st.width * 2] else [] } } : Canvas) =
      { putImageData c snap with ctx :=
        { c.ctx with
          path := []
          gco := GCO.sourceOver
          strokeStyle := st.color
          lineWidth := st.width
          lineDash := if t = ToolType.dashed then [st.width * 3, st.width * 2] else [] } } := by
    apply Canvas.ext
    · simpa using hwR
    · simpa using hhR
    · funext i j
      by_cases hin : i < c.width ∧ j < c.height
      · simp [putImageData, hw, hh, hwR, hhR, hin]
      · have h2R : ¬ (i < snap.width ∧ j < snap.height ∧
            i < (previewApply F t st a p snap c).width ∧
            j < (previewApply F t st a p snap c).height) := by
          rw [hwR, hhR]
          rintro ⟨-, -, hA, hB⟩
          exact hin ⟨hA, hB⟩
        have h2c : ¬ (i < snap.width ∧ j < snap.height ∧
            i < c.width ∧ j < c.height) := by
          rintro ⟨-, -, hA, hB⟩
          exact hin ⟨hA, hB⟩
        simp only [putImageData]
        rw [if_neg h2R, if_neg h2c]
        exact previewApply_pix_outside F t st a p snap c i j hin
    · rw [hctx]
  exact congrArg (drawShape F t a p) hbase

/-- C5: during an active shape session whose pre-session snapshot matches
the canvas dimensions, a move event is idempotent — repeating it with the
same current point and unchanged settings reproduces the exact same board
state (pixel traces included), because each move restores the snapshot
before redrawing the outline; preview frames never accumulate. -/
theorem preview_idempotent (F : FloatOps) (t : ToolType) (st : DrawingSettings)
    (p : Point) (s : BoardState) (a : Point) (snap : ImageData)
    (hd : s.isDrawing = true) (ha : s.startPos = some a)
    (hs : s.snapshot = some snap)
    (hw : snap.width = s.canvas.width) (hh : snap.height = s.canvas.height)
    (hp : t ≠ ToolType.pen) (he : t ≠ ToolType.eraser) :
    draw F t st p (draw F t st p s) = draw F t st p s := by
  have hor : ¬ (t = ToolType.pen ∨ t = ToolType.eraser) := by
    rintro (h | h) <;> [exact hp h; exact he h]
  have hgen : ∀ c : Canvas, draw F t st p { s with canvas := c } =
      { s with canvas := previewApply F t st a p snap c } := by
    intro c
    unfold draw previewApply
    simp [ha, hs, hd, hor]
  have h1 : draw F t st p s =
      { s with canvas := previewApply F t st a p snap s.canvas } :=
    hgen s.canvas
  rw [h1, hgen (previewApply F t st a p snap s.canvas),
    previewApply_stable F t st a p snap s.canvas hw hh]

theorem preview_idempotent_witness :
    draw ratOps ToolType.rect ⟨"#FFFFFF", 4, 1⟩ ⟨9, 9⟩
        (draw ratOps ToolType.rect ⟨"#FFFFFF", 4, 1⟩ ⟨9, 9⟩
          (startDrawing ToolType.rect ⟨"#FFFFFF", 4, 1⟩ ⟨1, 1⟩ initialBoard)) =
      draw ratOps ToolType.rect ⟨"#FFFFFF", 4, 1⟩ ⟨9, 9⟩
        (startDrawing ToolType.rect ⟨"#FFFFFF", 4, 1⟩ ⟨1, 1⟩ initialBoard) :=
  preview_idempotent ratOps ToolType.rect ⟨"#FFFFFF", 4, 1⟩ ⟨9, 9⟩
    (startDrawing ToolType.rect ⟨"#FFFFFF", 4, 1⟩ ⟨1, 1⟩ initialBoard) ⟨1, 1⟩
    (getImageData initialBoard.canvas) rfl rfl rfl rfl rfl
    (by decide) (by decide)
